import Mathlib

/-!
Verification of the ETL core of the ecfr-dashboard repository.

The definitions below are a shallow embedding of the Python sources:
  * src/etl/transform.py  (DataTransformer: clean_text, transform_admin_api,
    transform_versioner_api)
  * src/etl/load.py       (DatabaseLoader: insert_agency, insert_cfr_reference)
  * src/config/config.py  (Config.paramBuilder)
  * src/etl/extract.py    (DataExtractor.extract_data)

Strings are modelled by Lean's `String` (a list of characters); Python `None`
for an optional string is modelled by `Option String`.
-/

set_option maxHeartbeats 1000000

/-! ## Text cleaning: `clean_text` (src/etl/transform.py lines 19-23)

Python: `re.sub(r'\s+', ' ', text).strip()` when `text` is truthy, else `''`.
`isWS` models the ASCII portion of the regex class `\s` (space, tab, newline,
carriage return, vertical tab, form feed); the Unicode extras that Python's
`\s` also matches play no role in any claim. -/

def isWS (c : Char) : Bool :=
  c == ' ' || c == '\t' || c == '\n' || c == '\r' || c == Char.ofNat 11 || c == Char.ofNat 12

/-- One left-to-right pass of `re.sub(r'\s+', ' ', ·)`: every maximal run of
whitespace characters is replaced by a single space.  The flag records whether
we are currently inside a whitespace run. -/
def collapseAux : List Char → Bool → List Char
  | [], _ => []
  | c :: rest, inRun =>
    if isWS c then
      if inRun then collapseAux rest true
      else ' ' :: collapseAux rest true
    else c :: collapseAux rest false

def collapseWS (l : List Char) : List Char := collapseAux l false

/-- Remove the trailing run of whitespace characters (the right half of
Python's `str.strip()`). -/
def dropTrail : List Char → List Char
  | [] => []
  | c :: rest =>
    let r := dropTrail rest
    if r = [] && isWS c then [] else c :: r

/-- Python `str.strip()`: drop the leading and the trailing whitespace run. -/
def stripWS (l : List Char) : List Char := dropTrail (l.dropWhile isWS)

def pythonStrip (s : String) : String := String.mk (stripWS s.data)

/-- `DataTransformer.clean_text`.  Python's `if text:` is false for `None`
and for the empty string, in which case `''` is returned. -/
def clean_text : Option String → String
  | none => ""
  | some s => if s = "" then "" else String.mk (stripWS (collapseWS s.data))

/-! Characterisation of collapsed character lists: every whitespace character
is a plain space, and no two adjacent characters are both whitespace. -/

def collapsedOk : List Char → Bool
  | [] => true
  | [c] => !isWS c || c == ' '
  | c :: d :: rest => ((!isWS c || c == ' ') && (!isWS c || !isWS d)) && collapsedOk (d :: rest)

lemma collapseAux_true_head :
    ∀ l d r, collapseAux l true = d :: r → isWS d = false := by
  intro l
  induction l with
  | nil => intro d r h; simp [collapseAux] at h
  | cons c rest ih =>
    intro d r h
    by_cases hc : isWS c = true
    · simp [collapseAux, hc] at h
      exact ih d r h
    · simp [collapseAux, hc] at h
      simp only [Bool.not_eq_true] at hc
      rw [← h.1]; exact hc

lemma collapsedOk_tail {c : Char} {m : List Char}
    (h : collapsedOk (c :: m) = true) : collapsedOk m = true := by
  cases m with
  | nil => rfl
  | cons d r => simp [collapsedOk] at h; exact h.2

lemma collapsedOk_cons_space {m : List Char}
    (hm : collapsedOk m = true)
    (hh : ∀ d r, m = d :: r → isWS d = false) :
    collapsedOk (' ' :: m) = true := by
  cases m with
  | nil => rfl
  | cons d r =>
    have hd : isWS d = false := hh d r rfl
    simp [collapsedOk, hd, hm]

lemma collapsedOk_cons_nonws {c : Char} {m : List Char}
    (hc : isWS c = false) (hm : collapsedOk m = true) :
    collapsedOk (c :: m) = true := by
  cases m with
  | nil => simp [collapsedOk, hc]
  | cons d r => simp [collapsedOk, hc, hm]

lemma collapsedOk_collapseAux : ∀ (l : List Char) (b : Bool),
    collapsedOk (collapseAux l b) = true := by
  intro l
  induction l with
  | nil => intro b; rfl
  | cons c rest ih =>
    intro b
    by_cases hc : isWS c = true
    · cases b with
      | true => simpa [collapseAux, hc] using ih true
      | false =>
        simp only [collapseAux, hc, if_true]
        exact collapsedOk_cons_space (ih true)
          (fun d r h => collapseAux_true_head rest d r h)
    · have hc' : isWS c = false := by simpa using hc
      simp only [collapseAux, hc', Bool.false_eq_true, if_false]
      exact collapsedOk_cons_nonws hc' (ih false)

lemma dropWhile_isWS_head :
    ∀ (l : List Char) d r, l.dropWhile isWS = d :: r → isWS d = false := by
  intro l
  induction l with
  | nil => intro d r h; simp at h
  | cons c rest ih =>
    intro d r h
    by_cases hc : isWS c = true
    · rw [List.dropWhile_cons_of_pos hc] at h; exact ih d r h
    · have hc' : isWS c = false := by simpa using hc
      rw [List.dropWhile_cons_of_neg (by simp [hc'])] at h
      injection h with h1 _
      rw [← h1]; exact hc'

lemma dropWhile_isWS_collapsedOk {l : List Char}
    (h : collapsedOk l = true) : collapsedOk (l.dropWhile isWS) = true := by
  induction l with
  | nil => exact h
  | cons c rest ih =>
    by_cases hc : isWS c = true
    · rw [List.dropWhile_cons_of_pos hc]
      exact ih (collapsedOk_tail h)
    · rwa [List.dropWhile_cons_of_neg (by simpa using hc)]

lemma dropTrail_head :
    ∀ (l : List Char) d r, dropTrail l = d :: r → l.head? = some d := by
  intro l d r h
  cases l with
  | nil => simp [dropTrail] at h
  | cons c rest =>
    simp only [dropTrail] at h
    by_cases hb : (dropTrail rest = [] && isWS c) = true
    · rw [if_pos hb] at h; exact absurd h (by simp)
    · rw [if_neg hb] at h
      injection h with h1 _
      rw [← h1]; rfl

lemma collapsedOk_head_cases {c : Char} {m : List Char}
    (h : collapsedOk (c :: m) = true) :
    isWS c = false ∨ (c = ' ' ∧ ∀ d r, m = d :: r → isWS d = false) := by
  by_cases hc : isWS c = true
  · right
    cases m with
    | nil =>
      refine ⟨?_, by intro d r h'; simp at h'⟩
      simp [collapsedOk, hc] at h
      exact h
    | cons d r =>
      simp [collapsedOk, hc] at h
      refine ⟨h.1.1, ?_⟩
      intro d' r' h'
      injection h' with h1 _
      rw [← h1]; exact h.1.2
  · left; simpa using hc

lemma dropTrail_collapsedOk : ∀ {l : List Char},
    collapsedOk l = true → collapsedOk (dropTrail l) = true := by
  intro l
  induction l with
  | nil => intro h; exact h
  | cons c rest ih =>
    intro h
    simp only [dropTrail]
    by_cases hb : (dropTrail rest = [] && isWS c) = true
    · rw [if_pos hb]; rfl
    · rw [if_neg hb]
      have hrest : collapsedOk (dropTrail rest) = true := ih (collapsedOk_tail h)
      rcases collapsedOk_head_cases h with hns | ⟨hsp, hnext⟩
      · exact collapsedOk_cons_nonws hns hrest
      · subst hsp
        refine collapsedOk_cons_space hrest ?_
        intro d r hdr
        have := dropTrail_head rest d r hdr
        cases rest with
        | nil => simp at this
        | cons e tl =>
          simp only [List.head?] at this
          injection this with h1
          rw [← h1]
          exact hnext e tl rfl

lemma dropTrail_idem : ∀ (l : List Char), dropTrail (dropTrail l) = dropTrail l := by
  intro l
  induction l with
  | nil => rfl
  | cons c rest ih =>
    simp only [dropTrail]
    by_cases hb : (dropTrail rest = [] && isWS c) = true
    · rw [if_pos hb]; rfl
    · rw [if_neg hb]
      simp only [dropTrail, ih]
      rw [if_neg hb]

lemma dropWhile_isWS_eq_self {l : List Char}
    (h : ∀ d r, l = d :: r → isWS d = false) : l.dropWhile isWS = l := by
  cases l with
  | nil => rfl
  | cons c rest =>
    exact List.dropWhile_cons_of_neg (by simp [h c rest rfl])

/-- On a collapsed list whose head is not whitespace, the collapsing pass is
the identity (with either value of the run flag); and a collapsed list of the
shape `' ' :: tail-with-non-whitespace-head` is also left unchanged by the
pass started outside a run. -/
lemma collapseAux_id : ∀ (m : List Char), collapsedOk m = true →
    ((∀ d r, m = d :: r → isWS d = false) →
        collapseAux m false = m ∧ collapseAux m true = m)
    ∧ (∀ r, m = ' ' :: r → (∀ d r2, r = d :: r2 → isWS d = false) →
        collapseAux m false = m) := by
  intro m
  induction m with
  | nil => intro _; exact ⟨fun _ => ⟨rfl, rfl⟩, fun r h => by simp at h⟩
  | cons c rest ih =>
    intro hok
    have ihrest := ih (collapsedOk_tail hok)
    constructor
    · intro hhead
      have hc : isWS c = false := hhead c rest rfl
      have hrest : collapseAux rest false = rest := by
        cases rest with
        | nil => rfl
        | cons d r2 =>
          by_cases hd : isWS d = true
          · rcases collapsedOk_head_cases (collapsedOk_tail hok) with h1 | ⟨hsp, hnext⟩
            · rw [h1] at hd; exact absurd hd (by simp)
            · subst hsp
              exact ihrest.2 r2 rfl hnext
          · exact (ihrest.1 (fun e r3 h3 => by
              injection h3 with h4 _
              rw [← h4]; simpa using hd)).1
      constructor
      · simp [collapseAux, hc, hrest]
      · simp [collapseAux, hc, hrest]
    · intro r hr hnext
      injection hr with hc hrest'
      subst hc; subst hrest'
      have : collapseAux rest true = rest := (ihrest.1 hnext).2
      simp [collapseAux, isWS, this]

lemma stripWS_head {l : List Char} {d : Char} {r : List Char}
    (h : stripWS l = d :: r) : isWS d = false := by
  unfold stripWS at h
  have h2 := dropTrail_head _ _ _ h
  cases hdl : l.dropWhile isWS with
  | nil => rw [hdl] at h2; simp at h2
  | cons e tl =>
    rw [hdl] at h2
    simp only [List.head?] at h2
    injection h2 with h3
    rw [← h3]
    exact dropWhile_isWS_head l e tl hdl

lemma stripWS_collapsedOk {l : List Char}
    (h : collapsedOk l = true) : collapsedOk (stripWS l) = true :=
  dropTrail_collapsedOk (dropWhile_isWS_collapsedOk h)

lemma stripWS_head_all {l : List Char} :
    ∀ d r, stripWS l = d :: r → isWS d = false :=
  fun _ _ h => stripWS_head h

/-- Core idempotence fact: cleaning an already cleaned character list changes
nothing. -/
lemma strip_collapse_idem (l : List Char) :
    stripWS (collapseWS (stripWS (collapseWS l))) = stripWS (collapseWS l) := by
  set y := stripWS (collapseWS l) with hy
  have hok : collapsedOk y = true :=
    stripWS_collapsedOk (collapsedOk_collapseAux l false)
  have hhead : ∀ d r, y = d :: r → isWS d = false := fun d r h =>
    stripWS_head (hy ▸ h)
  have hcol : collapseWS y = y := ((collapseAux_id y hok).1 hhead).1
  rw [hcol]
  unfold stripWS
  rw [dropWhile_isWS_eq_self hhead]
  have : y = dropTrail ((collapseWS l).dropWhile isWS) := hy
  rw [this, dropTrail_idem]

/-- C7: `clean_text` is idempotent, collapses internal whitespace runs to a
single space while trimming the ends, and maps null/absent input to the empty
string. -/
theorem clean_text_spec :
    (∀ t : Option String, clean_text (some (clean_text t)) = clean_text t)
    ∧ clean_text (some "a   b\n c") = "a b c"
    ∧ clean_text none = "" := by
  refine ⟨?_, by decide, rfl⟩
  intro t
  cases t with
  | none => rfl
  | some s =>
    by_cases hs : s = ""
    · subst hs; rfl
    · have h1 : clean_text (some s) = String.mk (stripWS (collapseWS s.data)) := by
        simp [clean_text, hs]
      rw [h1]
      by_cases hy : String.mk (stripWS (collapseWS s.data)) = ""
      · rw [hy]; simp [clean_text]
      · have h2 : clean_text (some (String.mk (stripWS (collapseWS s.data))))
            = String.mk (stripWS (collapseWS (stripWS (collapseWS s.data)))) := by
          simp [clean_text, hy]
        rw [h2, strip_collapse_idem]

/-! ## Admin transform: `transform_admin_api` (src/etl/transform.py lines 34-100)

The payload is the decoded JSON of `GET api/admin/v1/agencies.json`.  The
code reads `agency['name']` and `agency['slug']` (required string fields),
`agency.get('short_name')` etc. (optional, `None` when absent), the
`cfr_references` list via `.get(..., [])`, and the `children` list likewise.
The `slug_to_id` Python dict is modelled as a function `String → Option Nat`
updated pointwise, exactly mirroring dict assignment. -/

structure CfrRefIn where
  title : Option String
  chapter : Option String
  part : Option String
deriving DecidableEq

structure ChildIn where
  name : String
  short_name : Option String
  display_name : Option String
  sortable_name : Option String
  slug : String
  cfr_references : List CfrRefIn
deriving DecidableEq

structure AgencyIn where
  name : String
  short_name : Option String
  display_name : Option String
  sortable_name : Option String
  slug : String
  cfr_references : List CfrRefIn
  children : List ChildIn
deriving DecidableEq

structure AdminPayload where
  agencies : Option (List AgencyIn)

structure AgencyRow where
  agency_id : Nat
  name : String
  short_name : String
  display_name : String
  sortable_name : String
  slug : String
  parent_id : Option Nat
  cfr_references : List CfrRefIn
deriving DecidableEq

/-- The list comprehension of transform.py lines 50-57 / 77-84: each reference
is re-packed as a `{title, chapter, part}` dict from `ref.get(...)` values. -/
def mkRefOut (r : CfrRefIn) : CfrRefIn :=
  { title := r.title, chapter := r.chapter, part := r.part }

/-- The inner `for child in agency.get('children', [])` loop (lines 74-98).
State threaded through: the `slug_to_id` dict and the `next_id` counter.
At line 93 the code reads `slug_to_id[agency_slug]`; the key is always
present there (it was written at line 70), so the total lookup `m aslug`
returns exactly the dict's value. -/
def processChildren (aslug : String) :
    List ChildIn → (String → Option Nat) → Nat →
      List AgencyRow × (String → Option Nat) × Nat
  | [], m, nid => ([], m, nid)
  | c :: cs, m, nid =>
    let cslug := clean_text (some c.slug)
    let row : AgencyRow :=
      { agency_id := nid
        name := clean_text (some c.name)
        short_name := clean_text c.short_name
        display_name := clean_text c.display_name
        sortable_name := clean_text c.sortable_name
        slug := cslug
        parent_id := m aslug
        cfr_references := c.cfr_references.map mkRefOut }
    let m2 : String → Option Nat := fun s => if s = cslug then some nid else m s
    let rest := processChildren aslug cs m2 (nid + 1)
    (row :: rest.1, rest.2)

/-- The outer `for agency in agencies` loop (lines 46-98). -/
def processAgencies :
    List AgencyIn → (String → Option Nat) → Nat →
      List AgencyRow × (String → Option Nat) × Nat
  | [], m, nid => ([], m, nid)
  | a :: rest, m, nid =>
    let aslug := clean_text (some a.slug)
    let row : AgencyRow :=
      { agency_id := nid
        name := clean_text (some a.name)
        short_name := clean_text a.short_name
        display_name := clean_text a.display_name
        sortable_name := clean_text a.sortable_name
        slug := aslug
        parent_id := none
        cfr_references := a.cfr_references.map mkRefOut }
    let m1 : String → Option Nat := fun s => if s = aslug then some nid else m s
    let resC := processChildren aslug a.children m1 (nid + 1)
    let resA := processAgencies rest resC.2.1 resC.2.2
    (row :: (resC.1 ++ resA.1), resA.2)

/-- `DataTransformer.transform_admin_api`: `api_response.get('agencies', [])`,
then the two nested loops with `next_id` starting at 1. -/
def transform_admin_api (p : AdminPayload) : List AgencyRow :=
  (processAgencies (p.agencies.getD []) (fun _ => none) 1).1

lemma processChildren_len (aslug : String) :
    ∀ (cs : List ChildIn) (m : String → Option Nat) (nid : Nat),
      (processChildren aslug cs m nid).1.length = cs.length := by
  intro cs
  induction cs with
  | nil => intro m nid; rfl
  | cons c cs ih => intro m nid; simp [processChildren, ih]

lemma processChildren_nid (aslug : String) :
    ∀ (cs : List ChildIn) (m : String → Option Nat) (nid : Nat),
      (processChildren aslug cs m nid).2.2 = nid + cs.length := by
  intro cs
  induction cs with
  | nil => intro m nid; simp [processChildren]
  | cons c cs ih => intro m nid; simp [processChildren, ih]; omega

lemma processChildren_ids (aslug : String) :
    ∀ (cs : List ChildIn) (m : String → Option Nat) (nid : Nat),
      (processChildren aslug cs m nid).1.map (fun r => r.agency_id)
        = List.range' nid cs.length := by
  intro cs
  induction cs with
  | nil => intro m nid; rfl
  | cons c cs ih =>
    intro m nid
    simp only [processChildren, List.map_cons, List.length_cons, List.range'_succ]
    exact congrArg _ (ih _ _)

lemma processChildren_slugs (aslug : String) :
    ∀ (cs : List ChildIn) (m : String → Option Nat) (nid : Nat),
      (processChildren aslug cs m nid).1.map (fun r => r.slug)
        = cs.map (fun c => clean_text (some c.slug)) := by
  intro cs
  induction cs with
  | nil => intro m nid; rfl
  | cons c cs ih =>
    intro m nid
    simp only [processChildren, List.map_cons]
    exact congrArg _ (ih _ _)

lemma processChildren_refs (aslug : String) :
    ∀ (cs : List ChildIn) (m : String → Option Nat) (nid : Nat),
      (processChildren aslug cs m nid).1.map (fun r => r.cfr_references)
        = cs.map (fun c => c.cfr_references.map mkRefOut) := by
  intro cs
  induction cs with
  | nil => intro m nid; rfl
  | cons c cs ih =>
    intro m nid
    simp only [processChildren, List.map_cons]
    exact congrArg _ (ih _ _)

lemma processChildren_parents (aslug : String) :
    ∀ (cs : List ChildIn) (m : String → Option Nat) (nid : Nat),
      (∀ c ∈ cs, clean_text (some c.slug) ≠ aslug) →
      (processChildren aslug cs m nid).1.map (fun r => r.parent_id)
        = List.replicate cs.length (m aslug) := by
  intro cs
  induction cs with
  | nil => intro m nid _; rfl
  | cons c cs ih =>
    intro m nid hcs
    have hne : clean_text (some c.slug) ≠ aslug := hcs c (by simp)
    simp only [processChildren, List.map_cons, List.length_cons,
      List.replicate_succ]
    refine congrArg _ ?_
    rw [ih _ _ (fun x hx => hcs x (by simp [hx])),
      if_neg (fun h => hne h.symm)]

def totalRows (ags : List AgencyIn) : Nat :=
  ags.length + (ags.map (fun a => a.children.length)).sum

lemma processAgencies_nid :
    ∀ (ags : List AgencyIn) (m : String → Option Nat) (nid : Nat),
      (processAgencies ags m nid).2.2 = nid + totalRows ags := by
  intro ags
  induction ags with
  | nil => intro m nid; simp [processAgencies, totalRows]
  | cons a rest ih =>
    intro m nid
    simp only [processAgencies, ih, processChildren_nid, totalRows,
      List.map_cons, List.sum_cons, List.length_cons]
    omega

lemma processAgencies_len :
    ∀ (ags : List AgencyIn) (m : String → Option Nat) (nid : Nat),
      (processAgencies ags m nid).1.length = totalRows ags := by
  intro ags
  induction ags with
  | nil => intro m nid; simp [processAgencies, totalRows]
  | cons a rest ih =>
    intro m nid
    simp only [processAgencies, List.length_cons, List.length_append,
      processChildren_len, ih, totalRows, List.map_cons, List.sum_cons,
      List.length_cons]
    omega

lemma processAgencies_ids :
    ∀ (ags : List AgencyIn) (m : String → Option Nat) (nid : Nat),
      (processAgencies ags m nid).1.map (fun r => r.agency_id)
        = List.range' nid (totalRows ags) := by
  intro ags
  induction ags with
  | nil => intro m nid; simp [processAgencies, totalRows]
  | cons a rest ih =>
    intro m nid
    have htot : totalRows (a :: rest)
        = 1 + (a.children.length + totalRows rest) := by
      simp [totalRows, List.length_cons]; omega
    rw [htot]
    simp only [processAgencies, List.map_cons, List.map_append]
    rw [processChildren_ids, ih, processChildren_nid]
    rw [Nat.add_comm 1 (a.children.length + totalRows rest), List.range'_succ]
    refine congrArg _ ?_
    rw [Nat.add_comm a.children.length (totalRows rest)]
    exact List.range'_append_1 (nid + 1) a.children.length (totalRows rest)

lemma processAgencies_slugs :
    ∀ (ags : List AgencyIn) (m : String → Option Nat) (nid : Nat),
      (processAgencies ags m nid).1.map (fun r => r.slug)
        = (ags.map (fun a =>
            clean_text (some a.slug)
              :: a.children.map (fun c => clean_text (some c.slug)))).flatten := by
  intro ags
  induction ags with
  | nil => intro m nid; rfl
  | cons a rest ih =>
    intro m nid
    simp only [processAgencies, List.map_cons, List.map_append,
      List.flatten_cons, processChildren_slugs, ih, List.cons_append]

lemma processAgencies_refs :
    ∀ (ags : List AgencyIn) (m : String → Option Nat) (nid : Nat),
      (processAgencies ags m nid).1.map (fun r => r.cfr_references)
        = (ags.map (fun a =>
            a.cfr_references.map mkRefOut
              :: a.children.map (fun c => c.cfr_references.map mkRefOut))).flatten := by
  intro ags
  induction ags with
  | nil => intro m nid; rfl
  | cons a rest ih =>
    intro m nid
    simp only [processAgencies, List.map_cons, List.map_append,
      List.flatten_cons, processChildren_refs, ih, List.cons_append]

/-- C1: the admin transform emits one row per top-level agency plus one per
child, and the synthesized `agency_id`s, read in emission order, are exactly
`1, 2, ..., N + Σ cᵢ`; the emission order is each parent's row followed by
its children's rows in payload order (witnessed here by the slug column). -/
theorem admin_transform_count_and_ids (p : AdminPayload) :
    (transform_admin_api p).length
        = (p.agencies.getD []).length
            + ((p.agencies.getD []).map (fun a => a.children.length)).sum
    ∧ (transform_admin_api p).map (fun r => r.agency_id)
        = List.range' 1 ((p.agencies.getD []).length
            + ((p.agencies.getD []).map (fun a => a.children.length)).sum)
    ∧ (transform_admin_api p).map (fun r => r.slug)
        = ((p.agencies.getD []).map (fun a =>
            clean_text (some a.slug)
              :: a.children.map (fun c => clean_text (some c.slug)))).flatten := by
  refine ⟨?_, ?_, ?_⟩
  · exact processAgencies_len _ _ _
  · exact processAgencies_ids _ _ _
  · exact processAgencies_slugs _ _ _

/-- Each emitted reference triple is definitionally the payload's triple:
no `clean_text` is interposed. -/
lemma mkRefOut_id : mkRefOut = id := rfl

/-- C9: the admin transform copies every `cfr_references` entry of every
agency and child into its emitted row unchanged (no text cleaning). -/
theorem admin_refs_passthrough (p : AdminPayload) :
    (transform_admin_api p).map (fun r => r.cfr_references)
      = ((p.agencies.getD []).map (fun a =>
          a.cfr_references :: a.children.map (fun c => c.cfr_references))).flatten := by
  have h := processAgencies_refs (p.agencies.getD []) (fun _ => none) 1
  rw [transform_admin_api, h]
  simp [mkRefOut_id]

/-! ## C2: parent links

The claim says every child row's `parent_id` equals the id assigned to its
enclosing top-level agency, recovered through the `slug_to_id` dict.  In the
code the dict entry for the parent's slug can be overwritten by a child that
has the same cleaned slug (line 97), so a later sibling is linked to that
child instead: the claim fails on such payloads and is amended with the
proviso that no child shares its enclosing agency's cleaned slug. -/

/-- Modelled from the spec's words, for comparison with the code: the expected
`parent_id` column — `null` for each top-level agency, and for each child the
id that was assigned to its enclosing top-level agency. -/
def specParentIds : List AgencyIn → Nat → List (Option Nat)
  | [], _ => []
  | a :: rest, nid =>
    (none :: List.replicate a.children.length (some nid))
      ++ specParentIds rest (nid + 1 + a.children.length)

lemma processAgencies_parents :
    ∀ (ags : List AgencyIn) (m : String → Option Nat) (nid : Nat),
      (∀ a ∈ ags, ∀ c ∈ a.children,
        clean_text (some c.slug) ≠ clean_text (some a.slug)) →
      (processAgencies ags m nid).1.map (fun r => r.parent_id)
        = specParentIds ags nid := by
  intro ags
  induction ags with
  | nil => intro m nid _; rfl
  | cons a rest ih =>
    intro m nid hH
    have hA : ∀ c ∈ a.children,
        clean_text (some c.slug) ≠ clean_text (some a.slug) :=
      hH a (by simp)
    simp only [processAgencies, List.map_cons, List.map_append, specParentIds,
      List.cons_append]
    refine congrArg _ ?_
    rw [processChildren_parents _ _ _ _ hA]
    rw [if_pos rfl]
    rw [ih _ _ (fun x hx => hH x (by simp [hx]))]
    rw [processChildren_nid]

/-- C2 (amended): provided no child of a top-level agency has the same cleaned
slug as that agency, a row's `parent_id` is null iff it came from a top-level
entry, and each child row's `parent_id` is the id assigned to its enclosing
top-level agency. -/
theorem admin_parent_ids_amended (p : AdminPayload)
    (H : ∀ a ∈ p.agencies.getD [], ∀ c ∈ a.children,
      clean_text (some c.slug) ≠ clean_text (some a.slug)) :
    (transform_admin_api p).map (fun r => r.parent_id)
      = specParentIds (p.agencies.getD []) 1 :=
  processAgencies_parents _ _ _ H

/-- A payload on which C2 as stated fails: one top-level agency (slug `a`,
assigned id 1) whose first child also has slug `a` and whose second child has
slug `b`.  After the first child is emitted it overwrites `slug_to_id['a']`,
so the second child's `parent_id` is 2 (the first child's id) instead of 1
(the enclosing agency's id). -/
def collidingPayload : AdminPayload :=
  { agencies := some
      [ { name := "Agency A", short_name := none, display_name := none,
          sortable_name := none, slug := "a", cfr_references := []
          children :=
            [ { name := "Child One", short_name := none, display_name := none,
                sortable_name := none, slug := "a", cfr_references := [] },
              { name := "Child Two", short_name := none, display_name := none,
                sortable_name := none, slug := "b", cfr_references := [] } ] } ] }

/-- C2 counterexample: on `collidingPayload` the ids are `[1, 2, 3]` and the
parent ids are `[none, some 1, some 2]` — the third row is a child of the
top-level agency whose assigned id is 1, yet its `parent_id` is 2. -/
theorem admin_parent_ids_cex :
    (transform_admin_api collidingPayload).map (fun r => r.agency_id) = [1, 2, 3]
    ∧ (transform_admin_api collidingPayload).map (fun r => r.parent_id)
        = [none, some 1, some 2] := by
  constructor
  · rfl
  · rfl

/-- A payload satisfying the amended hypothesis of C2. -/
def okPayload : AdminPayload :=
  { agencies := some
      [ { name := "Department Of Examples", short_name := some "DOE",
          display_name := some "DOE", sortable_name := some "doe",
          slug := "doe", cfr_references := []
          children :=
            [ { name := "Sub Office", short_name := some "SO",
                display_name := some "SO", sortable_name := some "so",
                slug := "so", cfr_references := [] } ] } ] }

theorem admin_parent_ids_amended_witness :
    (∀ a ∈ okPayload.agencies.getD [], ∀ c ∈ a.children,
      clean_text (some c.slug) ≠ clean_text (some a.slug))
    ∧ (transform_admin_api okPayload).map (fun r => r.parent_id)
        = specParentIds (okPayload.agencies.getD []) 1 := by
  refine ⟨?_, ?_⟩
  · decide
  · exact admin_parent_ids_amended okPayload (by decide)

/-! ## Loader: `DatabaseLoader` (src/etl/load.py)

The sqlite schema: `agencies(agency_id INTEGER PRIMARY KEY, ..., slug TEXT
UNIQUE, parent_id INTEGER)` and `cfr_references(reference_id, agency_id
INTEGER NOT NULL, title, chapter, part, FOREIGN KEY (agency_id) REFERENCES
agencies(agency_id))`.  A table is modelled as the list of its rows.

`insert_agency` runs `INSERT OR REPLACE INTO agencies ...`.  Sqlite's
REPLACE conflict algorithm deletes every pre-existing row that violates any
uniqueness constraint of the incoming row — both the `agency_id` primary key
and the `slug TEXT UNIQUE` constraint (two NULL slugs never conflict) — and
then inserts the new row.

`insert_cfr_reference` runs a plain `INSERT INTO cfr_references ...`.  The
loader connects with `sqlite3.connect(db_path)` and never executes
`PRAGMA foreign_keys = ON`; sqlite ships with foreign-key enforcement
disabled, so the declared foreign key is NOT checked and the insert succeeds
for any `agency_id`. -/

structure DbAgencyRow where
  agency_id : Nat
  name : String
  short_name : String
  display_name : String
  sortable_name : String
  slug : Option String
  parent_id : Option Nat
deriving DecidableEq

structure DbRefRow where
  agency_id : Nat
  title : Option String
  chapter : Option String
  part : Option String
deriving DecidableEq

structure CfrDb where
  agencies : List DbAgencyRow
  cfr_references : List DbRefRow
deriving DecidableEq

/-- Two slug values violate the `slug TEXT UNIQUE` constraint iff both are
non-NULL and equal. -/
def slugConflict : Option String → Option String → Bool
  | some a, some b => a == b
  | _, _ => false

/-- `DatabaseLoader.insert_agency` (load.py lines 49-62): `INSERT OR REPLACE`
deletes all rows conflicting with the incoming row on `agency_id` or `slug`,
then appends the new row. -/
def insert_agency (t : List DbAgencyRow) (a : DbAgencyRow) : List DbAgencyRow :=
  t.filter (fun r => !(r.agency_id == a.agency_id || slugConflict r.slug a.slug)) ++ [a]

/-- `DatabaseLoader.insert_cfr_reference` (load.py lines 86-96): a plain
append; the declared foreign key is not enforced because the connection never
enables `PRAGMA foreign_keys`. -/
def insert_cfr_reference (db : CfrDb) (aid : Nat) (ref : CfrRefIn) : CfrDb :=
  { db with cfr_references :=
      db.cfr_references ++ [⟨aid, ref.title, ref.chapter, ref.part⟩] }

/-- The invariant sqlite maintains for the `agencies` table: primary keys are
pairwise distinct and non-NULL slugs are pairwise distinct. -/
def agencyTableWF (t : List DbAgencyRow) : Prop :=
  (t.map (fun r => r.agency_id)).Nodup
    ∧ (t.filterMap (fun r => r.slug)).Nodup

/-- C6 (amended): re-inserting a row with an existing `agency_id` replaces
that row — row count unchanged, the row stored under that id carries the new
field values — provided the new row's slug does not conflict with any row
other than the one being replaced (a conflicting slug would make sqlite's
REPLACE algorithm delete that other row as well, shrinking the table). -/
theorem insert_agency_upsert (t : List DbAgencyRow) (r a : DbAgencyRow)
    (hwf : agencyTableWF t) (hmem : r ∈ t) (hid : a.agency_id = r.agency_id)
    (hslug : ∀ s ∈ t, s ≠ r → slugConflict s.slug a.slug = false) :
    (insert_agency t a).length = t.length
    ∧ (insert_agency t a).filter (fun x => x.agency_id == a.agency_id) = [a] := by
  have hnodup : t.Nodup := List.Nodup.of_map _ hwf.1
  have hkeep : ∀ s ∈ t,
      (!(s.agency_id == a.agency_id || slugConflict s.slug a.slug)) = (s != r) := by
    intro s hs
    by_cases hsr : s = r
    · subst hsr
      have : (s.agency_id == a.agency_id) = true := by
        simp [hid]
      simp [this]
    · have hids : (s.agency_id == a.agency_id) = false := by
        rw [hid]
        by_cases h : s.agency_id = r.agency_id
        · exact absurd (List.inj_on_of_nodup_map hwf.1 hs hmem h) hsr
        · simpa using h
      have hsl : slugConflict s.slug a.slug = false := hslug s hs hsr
      simp [hids, hsl, hsr]
  have hfilter : t.filter
      (fun s => !(s.agency_id == a.agency_id || slugConflict s.slug a.slug))
      = t.erase r := by
    rw [List.filter_congr hkeep, List.Nodup.erase_eq_filter hnodup]
  constructor
  · unfold insert_agency
    rw [List.length_append, hfilter, List.length_erase_of_mem hmem]
    have := List.length_pos_of_mem hmem
    simp only [List.length_cons, List.length_nil]
    omega
  · have h2 : (t.erase r).filter (fun x => x.agency_id == a.agency_id) = [] := by
      rw [List.filter_eq_nil_iff]
      intro x hx
      rw [← hfilter] at hx
      rcases List.mem_filter.mp hx with ⟨_, hkx⟩
      simp only [Bool.not_eq_eq_eq_not, Bool.not_true, Bool.or_eq_false_iff] at hkx
      simp [hkx.1]
    unfold insert_agency
    rw [List.filter_append, hfilter, h2]
    simp

def rowOne : DbAgencyRow :=
  ⟨1, "Agency One", "", "", "", some "alpha", none⟩

def rowTwo : DbAgencyRow :=
  ⟨2, "Agency Two", "", "", "", some "beta", none⟩

/-- Same `agency_id` as `rowOne`, changed fields, and a slug that collides
with `rowTwo`. -/
def rowOneSlugClash : DbAgencyRow :=
  ⟨1, "Agency One Updated", "", "", "", some "beta", none⟩

/-- Same `agency_id` as `rowOne`, changed name, unchanged slug. -/
def rowOneUpdated : DbAgencyRow :=
  ⟨1, "Agency One Updated", "", "", "", some "alpha", none⟩

/-- C6 counterexample: with rows 1 and 2 stored, re-inserting id 1 with new
field values whose slug equals row 2's slug deletes BOTH old rows — the table
shrinks from 2 rows to 1, so "row count unchanged" fails. -/
theorem insert_agency_replace_cex :
    rowOneSlugClash.agency_id = rowOne.agency_id
    ∧ rowOneSlugClash ≠ rowOne
    ∧ (insert_agency (insert_agency [] rowOne) rowTwo).length = 2
    ∧ (insert_agency (insert_agency (insert_agency [] rowOne) rowTwo)
        rowOneSlugClash).length = 1 := by
  refine ⟨rfl, by decide, rfl, rfl⟩

theorem insert_agency_upsert_witness :
    (agencyTableWF [rowOne, rowTwo]
      ∧ rowOne ∈ [rowOne, rowTwo]
      ∧ rowOneUpdated.agency_id = rowOne.agency_id
      ∧ (∀ s ∈ [rowOne, rowTwo], s ≠ rowOne →
          slugConflict s.slug rowOneUpdated.slug = false))
    ∧ (insert_agency [rowOne, rowTwo] rowOneUpdated).length
        = ([rowOne, rowTwo] : List DbAgencyRow).length
    ∧ (insert_agency [rowOne, rowTwo] rowOneUpdated).filter
        (fun x => x.agency_id == rowOneUpdated.agency_id) = [rowOneUpdated] := by
  refine ⟨⟨⟨by decide, by decide⟩, by decide, rfl, by decide⟩, ?_⟩
  exact insert_agency_upsert [rowOne, rowTwo] rowOne rowOneUpdated
    ⟨by decide, by decide⟩ (by decide) rfl (by decide)

/-- C3: evaluating the loader at the claim's failing input.  On a fresh
database with no agency rows, `insert_cfr_reference 999 ...` does not fail:
it appends the reference row, because the loader never enables sqlite's
foreign-key enforcement. -/
theorem insert_reference_unchecked :
    (insert_cfr_reference ⟨[], []⟩ 999 ⟨some "1", some "I", none⟩).agencies = []
    ∧ (insert_cfr_reference ⟨[], []⟩ 999 ⟨some "1", some "I", none⟩).cfr_references
        = [⟨999, some "1", some "I", none⟩] := by
  exact ⟨rfl, rfl⟩

/-! ## Config: `Config.paramBuilder` (src/config/config.py lines 12-28)

For an unsupported service the source evaluates `ValueError(f'...')` WITHOUT
`raise` — the exception object is created, discarded, and the function falls
through to `return params`, returning the bundle `{'service': service}`. -/

def BASE_URL : String := "https://www.ecfr.gov/"

structure UserParams where
  date : Option String
  title : Option String

structure ConfigParams where
  service : String
  base_url : Option String
  endpoint : Option String
  date : Option String
  title : Option String
deriving DecidableEq

/-- Python-level failures that the embedded code can raise. -/
inductive PyError where
  | keyError (key : String)
  | unboundLocal (name : String)
  | serviceNotImplemented (service : String)
deriving DecidableEq

def paramBuilder (service : String) (user_params : UserParams) :
    Except PyError ConfigParams :=
  if service = "admin" then
    .ok { service := service, base_url := some BASE_URL,
          endpoint := some "api/admin/v1/agencies.json",
          date := none, title := none }
  else if service = "versioner" then
    match user_params.date, user_params.title with
    | some d, some t =>
        .ok { service := service, base_url := some BASE_URL,
              endpoint := none, date := some d, title := some t }
    | none, _ => .error (.keyError "date")
    | some _, none => .error (.keyError "title")
  else
    .ok { service := service, base_url := none, endpoint := none,
          date := none, title := none }

/-- C4: evaluating the code at the claim's failing input.  For the
unsupported service name `"bogus"` the builder returns normally with the
bundle `{'service': 'bogus'}` — the constructed `ValueError` is never raised,
so construction does NOT fail. -/
theorem paramBuilder_swallows_unsupported :
    paramBuilder "bogus" ⟨none, none⟩
      = Except.ok ⟨"bogus", none, none, none, none⟩ := rfl

/-! ## Extractor: `DataExtractor.extract_data` (src/etl/extract.py lines 21-54)

The single GET is abstracted as an oracle outcome: either a payload (2xx
response, decoded) or a `requests.RequestException` (which covers both
transport failures and the `HTTPError` from `raise_for_status()` on non-2xx).
In the admin branch the `except` clause only prints, after which the code
executes `return retrieved_data` with `retrieved_data` never having been
bound — Python raises `UnboundLocalError` (a `NameError`).  The versioner
branch has the same defect with `xml_content`. -/

inductive RawPayload where
  | jsonPayload (p : AdminPayload)
  | xmlText (s : String)

inductive FetchOutcome where
  | ok (p : RawPayload)
  | requestException

def extract_data (params : ConfigParams) (fetch : FetchOutcome) :
    Except PyError RawPayload :=
  if params.service = "admin" then
    match fetch with
    | .ok p => .ok p
    | .requestException => .error (.unboundLocal "retrieved_data")
  else if params.service = "versioner" then
    match params.date, params.title with
    | some _, some _ =>
        match fetch with
        | .ok p => .ok p
        | .requestException => .error (.unboundLocal "xml_content")
    | none, _ => .error (.keyError "date")
    | some _, none => .error (.keyError "title")
  else
    .error (.serviceNotImplemented params.service)

/-- C5: evaluating the code at the claim's failing input.  For the admin
configuration, when the GET fails (non-2xx or transport error) the extractor
does not surface a typed extraction failure: it raises the secondary
`UnboundLocalError` for `retrieved_data` and returns no payload. -/
theorem extract_admin_failure_unbound :
    extract_data
        ⟨"admin", some BASE_URL, some "api/admin/v1/agencies.json", none, none⟩
        FetchOutcome.requestException
      = Except.error (PyError.unboundLocal "retrieved_data") := rfl

/-! ## Versioner transform: `transform_versioner_api` (src/etl/transform.py
lines 102-145)

An lxml element carries a tag, attributes, the text before its first child
(`.text`, `None` when absent), its child elements, and the text following it
(`.tail`).  `findall('.//T')` returns all proper descendants with tag `T` in
document order; `findtext('HEAD')` returns the `.text` of the first direct
`HEAD` child (empty string when that element has no text, `None` when there
is no such child); `get('N')` returns the attribute value or `None`;
`itertext()` yields every text chunk under an element in document order.
`etree.fromstring` (the parse step) is abstracted away: the embedding takes
the parsed root element, which is what the loops consume. -/

inductive Xml where
  | elem (tag : String) (attrs : List (String × String)) (text : Option String)
      (children : List Xml) (tail : Option String)

def Xml.tag : Xml → String
  | .elem t _ _ _ _ => t

def Xml.attrs : Xml → List (String × String)
  | .elem _ a _ _ _ => a

def Xml.text : Xml → Option String
  | .elem _ _ tx _ _ => tx

def Xml.children : Xml → List Xml
  | .elem _ _ _ cs _ => cs

def Xml.tail : Xml → Option String
  | .elem _ _ _ _ tl => tl

/-- All elements with the given tag in a forest, descendant-or-self, in
document order. -/
def descListTag (tag : String) : List Xml → List Xml
  | [] => []
  | Xml.elem t a tx cs tl :: rest =>
      (if t = tag then [Xml.elem t a tx cs tl] else [])
        ++ descListTag tag cs ++ descListTag tag rest

/-- `element.findall('.//tag')`: all proper descendants with the tag, in
document order. -/
def findallDesc (e : Xml) (tag : String) : List Xml :=
  descListTag tag e.children

def optToList : Option String → List String
  | none => []
  | some s => [s]

/-- The text chunks produced by `itertext()` for a forest, where each
element contributes its `.text`, then its children recursively, each child
followed by its `.tail`. -/
def itertextList : List Xml → List String
  | [] => []
  | Xml.elem _ _ tx cs tl :: rest =>
      (optToList tx ++ itertextList cs) ++ (optToList tl ++ itertextList rest)

/-- `element.itertext()` (the element's own tail is not included). -/
def Xml.itertext (e : Xml) : List String :=
  optToList e.text ++ itertextList e.children

/-- First direct child with the given tag (`find`/`findtext` path `'HEAD'`
only searches immediate children). -/
def firstChildTag (e : Xml) (tag : String) : Option Xml :=
  e.children.find? (fun c => c.tag == tag)

/-- `element.findtext(tag)`: `None` when no such child, else the child's
`.text` with `None` coerced to the empty string. -/
def findtext (e : Xml) (tag : String) : Option String :=
  (firstChildTag e tag).map (fun h => h.text.getD "")

/-- Python `x or ''` for an optional string. -/
def pyOrEmpty : Option String → String
  | none => ""
  | some s => if s = "" then "" else s

/-- `(element.findtext('HEAD') or '').strip()`. -/
def headText (e : Xml) : String :=
  pythonStrip (pyOrEmpty (findtext e "HEAD"))

/-- `element.get('N')`: attribute lookup, `None` when absent. -/
def getAttr (e : Xml) (k : String) : Option String :=
  (e.attrs.find? (fun p => p.1 == k)).map (fun p => p.2)

/-- `' '.join(p.itertext()).strip()` for one paragraph element. -/
def paraText (p : Xml) : String :=
  pythonStrip (String.intercalate " " p.itertext)

/-- `' '.join(... for p in div8.findall('.//P'))`. -/
def bodyText (d8 : Xml) : String :=
  String.intercalate " " ((findallDesc d8 "P").map paraText)

structure SectionRow where
  title_number : Option String
  title_head : String
  chapter_number : Option String
  chapter_head : String
  subchapter_number : Option String
  subchapter_head : String
  part_number : Option String
  part_head : String
  section_number : Option String
  section_title : String
  body : String
deriving DecidableEq

/-- The dict appended at transform.py lines 131-143 for one quintuple of
nested elements. -/
def mkSectionRow (d1 d3 d4 d5 d8 : Xml) : SectionRow :=
  { title_number := getAttr d1 "N", title_head := headText d1
    chapter_number := getAttr d3 "N", chapter_head := headText d3
    subchapter_number := getAttr d4 "N", subchapter_head := headText d4
    part_number := getAttr d5 "N", part_head := headText d5
    section_number := getAttr d8 "N", section_title := headText d8
    body := bodyText d8 }

/-- `DataTransformer.transform_versioner_api`: the five nested `findall`
loops over DIV1/DIV3/DIV4/DIV5/DIV8, one row per DIV8. -/
def transform_versioner_api (root : Xml) : List SectionRow :=
  (findallDesc root "DIV1").flatMap fun d1 =>
  (findallDesc d1 "DIV3").flatMap fun d3 =>
  (findallDesc d3 "DIV4").flatMap fun d4 =>
  (findallDesc d4 "DIV5").flatMap fun d5 =>
  (findallDesc d5 "DIV8").map fun d8 => mkSectionRow d1 d3 d4 d5 d8

/-- Every emitted row arises from a quintuple of nested elements. -/
lemma transform_versioner_mem {root : Xml} {row : SectionRow}
    (h : row ∈ transform_versioner_api root) :
    ∃ d1 d3 d4 d5 d8,
      d1 ∈ findallDesc root "DIV1" ∧ d3 ∈ findallDesc d1 "DIV3"
      ∧ d4 ∈ findallDesc d3 "DIV4" ∧ d5 ∈ findallDesc d4 "DIV5"
      ∧ d8 ∈ findallDesc d5 "DIV8"
      ∧ row = mkSectionRow d1 d3 d4 d5 d8 := by
  simp only [transform_versioner_api, List.mem_flatMap, List.mem_map] at h
  obtain ⟨d1, h1, d3, h3, d4, h4, d5, h5, d8, h8, hrow⟩ := h
  exact ⟨d1, d3, d4, d5, d8, h1, h3, h4, h5, h8, hrow.symm⟩

/-- The head field, phrased as the claim phrases it: the trimmed text of the
first heading child, or the empty string when there is none. -/
def headSpec (e : Xml) : String :=
  match firstChildTag e "HEAD" with
  | none => ""
  | some h => pythonStrip (h.text.getD "")

lemma headText_eq_headSpec (e : Xml) : headText e = headSpec e := by
  unfold headText headSpec findtext
  cases hf : firstChildTag e "HEAD" with
  | none => rfl
  | some h =>
    show pythonStrip (pyOrEmpty (some (h.text.getD ""))) = pythonStrip (h.text.getD "")
    simp only [pyOrEmpty]
    by_cases he : h.text.getD "" = ""
    · rw [if_pos he, he]
    · rw [if_neg he]

lemma intercalate_nil : String.intercalate " " ([] : List String) = "" := rfl

/-- C8: every row the versioner transform emits has, for each of the five
levels, a head field equal to the trimmed text of that element's first HEAD
child — the empty string, not null, when the HEAD child is absent — and a
body that is the (string, never null) join of its paragraph texts, empty
when there is no paragraph element. -/
theorem versioner_heads_body_defaults (root : Xml) :
    ∀ row ∈ transform_versioner_api root,
      ∃ d1 d3 d4 d5 d8,
        d1 ∈ findallDesc root "DIV1" ∧ d3 ∈ findallDesc d1 "DIV3"
        ∧ d4 ∈ findallDesc d3 "DIV4" ∧ d5 ∈ findallDesc d4 "DIV5"
        ∧ d8 ∈ findallDesc d5 "DIV8"
        ∧ row = mkSectionRow d1 d3 d4 d5 d8
        ∧ row.title_head = headSpec d1
        ∧ row.chapter_head = headSpec d3
        ∧ row.subchapter_head = headSpec d4
        ∧ row.part_head = headSpec d5
        ∧ row.section_title = headSpec d8
        ∧ row.body = String.intercalate " " ((findallDesc d8 "P").map paraText)
        ∧ (findallDesc d8 "P" = [] → row.body = "") := by
  intro row hrow
  obtain ⟨d1, d3, d4, d5, d8, h1, h3, h4, h5, h8, heq⟩ :=
    transform_versioner_mem hrow
  subst heq
  refine ⟨d1, d3, d4, d5, d8, h1, h3, h4, h5, h8, rfl,
    headText_eq_headSpec d1, headText_eq_headSpec d3,
    headText_eq_headSpec d4, headText_eq_headSpec d5,
    headText_eq_headSpec d8, rfl, ?_⟩
  intro hp
  show bodyText d8 = ""
  unfold bodyText
  rw [hp]
  rfl

/-- The number field, phrased as the claim phrases it: equal to the element's
`N` attribute when present, null when absent. -/
def numberOk (o : Option String) (e : Xml) : Prop :=
  o = getAttr e "N"
  ∧ (("N" ∈ e.attrs.map Prod.fst) → ∃ v, o = some v)
  ∧ (("N" ∉ e.attrs.map Prod.fst) → o = none)

lemma numberOk_getAttr (e : Xml) : numberOk (getAttr e "N") e := by
  refine ⟨rfl, ?_, ?_⟩
  · intro hmem
    rcases List.mem_map.mp hmem with ⟨p, hp, hfst⟩
    have : (e.attrs.find? (fun q => q.1 == "N")).isSome := by
      rw [List.find?_isSome]
      exact ⟨p, hp, by simp [hfst]⟩
    rcases Option.isSome_iff_exists.mp this with ⟨q, hq⟩
    exact ⟨q.2, by simp [getAttr, hq]⟩
  · intro hmem
    have : e.attrs.find? (fun q => q.1 == "N") = none := by
      rw [List.find?_eq_none]
      intro p hp
      simp only [beq_iff_eq]
      intro hfst
      exact hmem (List.mem_map.mpr ⟨p, hp, hfst⟩)
    simp [getAttr, this]

/-- C10: every row the versioner transform emits carries, for each of the
five levels, a number field equal to that element's `N` attribute when the
attribute is present, and null — not the empty string — when absent. -/
theorem versioner_numbers_from_attr (root : Xml) :
    ∀ row ∈ transform_versioner_api root,
      ∃ d1 d3 d4 d5 d8,
        d1 ∈ findallDesc root "DIV1" ∧ d3 ∈ findallDesc d1 "DIV3"
        ∧ d4 ∈ findallDesc d3 "DIV4" ∧ d5 ∈ findallDesc d4 "DIV5"
        ∧ d8 ∈ findallDesc d5 "DIV8"
        ∧ row = mkSectionRow d1 d3 d4 d5 d8
        ∧ numberOk row.title_number d1
        ∧ numberOk row.chapter_number d3
        ∧ numberOk row.subchapter_number d4
        ∧ numberOk row.part_number d5
        ∧ numberOk row.section_number d8 := by
  intro row hrow
  obtain ⟨d1, d3, d4, d5, d8, h1, h3, h4, h5, h8, heq⟩ :=
    transform_versioner_mem hrow
  subst heq
  exact ⟨d1, d3, d4, d5, d8, h1, h3, h4, h5, h8, rfl,
    numberOk_getAttr d1, numberOk_getAttr d3, numberOk_getAttr d4,
    numberOk_getAttr d5, numberOk_getAttr d8⟩

/-! Concrete fixture for the versioner witnesses: one DIV1 (with an `N`
attribute, no HEAD child) containing one DIV3/DIV4/DIV5 chain ending in one
DIV8 with no HEAD child and no paragraph elements. -/

def sampleSection : Xml := .elem "DIV8" [] none [] none

def samplePart : Xml := .elem "DIV5" [] none [sampleSection] none

def sampleSubchapter : Xml := .elem "DIV4" [] none [samplePart] none

def sampleChapter : Xml := .elem "DIV3" [] none [sampleSubchapter] none

def sampleTitle : Xml := .elem "DIV1" [("N", "1")] none [sampleChapter] none

def sampleRoot : Xml := .elem "ECFR" [] none [sampleTitle] none

def sampleRow : SectionRow :=
  mkSectionRow sampleTitle sampleChapter sampleSubchapter samplePart sampleSection

lemma sampleRow_mem : sampleRow ∈ transform_versioner_api sampleRoot := by
  simp [transform_versioner_api, findallDesc, descListTag, sampleRoot,
    sampleTitle, sampleChapter, sampleSubchapter, samplePart, sampleSection,
    Xml.children, sampleRow]

theorem versioner_heads_body_defaults_witness :
    sampleRow ∈ transform_versioner_api sampleRoot
    ∧ ∃ d1 d3 d4 d5 d8,
        d1 ∈ findallDesc sampleRoot "DIV1" ∧ d3 ∈ findallDesc d1 "DIV3"
        ∧ d4 ∈ findallDesc d3 "DIV4" ∧ d5 ∈ findallDesc d4 "DIV5"
        ∧ d8 ∈ findallDesc d5 "DIV8"
        ∧ sampleRow = mkSectionRow d1 d3 d4 d5 d8
        ∧ sampleRow.title_head = headSpec d1
        ∧ sampleRow.chapter_head = headSpec d3
        ∧ sampleRow.subchapter_head = headSpec d4
        ∧ sampleRow.part_head = headSpec d5
        ∧ sampleRow.section_title = headSpec d8
        ∧ sampleRow.body
            = String.intercalate " " ((findallDesc d8 "P").map paraText)
        ∧ (findallDesc d8 "P" = [] → sampleRow.body = "") :=
  ⟨sampleRow_mem,
    versioner_heads_body_defaults sampleRoot sampleRow sampleRow_mem⟩

theorem versioner_numbers_from_attr_witness :
    sampleRow ∈ transform_versioner_api sampleRoot
    ∧ ∃ d1 d3 d4 d5 d8,
        d1 ∈ findallDesc sampleRoot "DIV1" ∧ d3 ∈ findallDesc d1 "DIV3"
        ∧ d4 ∈ findallDesc d3 "DIV4" ∧ d5 ∈ findallDesc d4 "DIV5"
        ∧ d8 ∈ findallDesc d5 "DIV8"
        ∧ sampleRow = mkSectionRow d1 d3 d4 d5 d8
        ∧ numberOk sampleRow.title_number d1
        ∧ numberOk sampleRow.chapter_number d3
        ∧ numberOk sampleRow.subchapter_number d4
        ∧ numberOk sampleRow.part_number d5
        ∧ numberOk sampleRow.section_number d8 :=
  ⟨sampleRow_mem,
    versioner_numbers_from_attr sampleRoot sampleRow sampleRow_mem⟩
